import Mathlib

/-!
Shallow embedding of the mediasoup-api HLS orchestrator
(`src/unnamed/part_002`, the socket.io handler module, together with
`src/unnamed/part_001`, `launchFfmpeg`).

Modelling conventions:
* Producer / transport / process handles are identified by `Nat` ids; a
  producer carries its mutable `closed` flag as a field and "closing" a
  producer is an explicit state update.
* JavaScript `Map`s are association lists (`List (key × value)`) read with
  first-match lookup, matching `Map.get`, and written with an in-place
  replace-or-append, matching `Map.set` (insertion order preserved, which is
  the iteration order of a JS `Map`).
* The restart fingerprint `lastHlsProducersKey` is a string in the source
  (`producersArray.map(p => `audioId,videoId`).sort().join("|")`).  Since the
  encoding of an id list into a string is injective, we model the fingerprint
  as the lexicographically sorted list of `(audioId, videoId)` pairs; the
  empty string written by the zero-candidate branch becomes `some []` and the
  initially-undefined field becomes `none`.
* External calls (port probe, `createPlainTransport`, `launchFfmpeg`,
  `connect`, `consume`) are oracles recorded in an `Env` structure; each call
  can succeed or fail as the environment dictates, and every performed effect
  is appended to an action trace so that ordering properties can be stated.
-/

namespace MediasoupApi

/-- Source: `type TransportKind = "producer" | "consumer"`. -/
inductive TKind where
  | producer
  | consumer
deriving DecidableEq, Repr

/-- Source: `type ProducerKind = "audio" | "video"`. -/
inductive PKind where
  | audio
  | video
deriving DecidableEq, Repr

/-- A mediasoup `Producer` handle: its id and its `closed` flag. -/
structure Producer where
  id : Nat
  closed : Bool
deriving DecidableEq, Repr

/-- One HLS egress plain-transport pair (`{ audio, video }`), by transport id. -/
structure TrPair where
  audioTr : Nat
  videoTr : Nat
deriving DecidableEq, Repr

/-- Source: `interface PortPair` with `rtp` and `rtcp` fields, from `launchFfmpeg.ts`. -/
structure PortPair where
  rtp : Nat
  rtcp : Nat
deriving DecidableEq, Repr

/-- Association-list lookup, first match: JS `Map.get`. -/
def alGet {α β : Type} [DecidableEq α] : List (α × β) → α → Option β
  | [], _ => none
  | e :: rest, a => if e.1 = a then some e.2 else alGet rest a

/-- Association-list write, replace in place or append: JS `Map.set`. -/
def alSet {α β : Type} [DecidableEq α] : List (α × β) → α → β → List (α × β)
  | [], a, b => [(a, b)]
  | e :: rest, a, b =>
      if e.1 = a then (e.1, b) :: rest else e :: alSet rest a b

/-- Association-list delete (keys are unique in a JS `Map`, so removing every
match coincides with `Map.delete`): JS `Map.delete`. -/
def alDel {α β : Type} [DecidableEq α] : List (α × β) → α → List (α × β)
  | [], _ => []
  | e :: rest, a => if e.1 = a then alDel rest a else e :: alDel rest a

/-- The `Room` record of `part_002` (lines 18-28).  `__pendingRestart` and the
separate `hlsRestarting` map are modelled in the orchestrator state machine
below, not here, because they only matter across interleavings. -/
structure Room where
  users : List String
  transports : List ((String × TKind) × Nat)
  producers : List (String × List (PKind × Producer))
  hlsPlainTransports : Option (List TrPair) := none
  hlsFfmpegProcess : Option Nat := none
  hlsDir : Option String := none
  lastHlsProducersKey : Option (List (Nat × Nat)) := none
deriving DecidableEq, Repr

/-- Source: `transportKey(socketId, kind)`; the pair itself serves as the key. -/
def transportKey (socketId : String) (kind : TKind) : String × TKind :=
  (socketId, kind)

/-- Lexicographic order on `(audioId, videoId)` pairs, mirroring the string
sort of `"audioId,videoId"` entries. -/
def pairLe (x y : Nat × Nat) : Bool :=
  x.1 < y.1 || (x.1 = y.1 && x.2 ≤ y.2)

/-- Insertion into a sorted list. -/
def insPair (x : Nat × Nat) : List (Nat × Nat) → List (Nat × Nat)
  | [] => [x]
  | y :: ys => if pairLe x y then x :: y :: ys else y :: insPair x ys

/-- Insertion sort: the `.sort()` on the fingerprint entries. -/
def sortPairs : List (Nat × Nat) → List (Nat × Nat)
  | [] => []
  | x :: xs => insPair x (sortPairs xs)

/-- Lines 96-102: every session whose kind map holds both an audio and a
video producer contributes the pair `{ audio, video }`, in map order. -/
def candidatePairs (room : Room) : List (Producer × Producer) :=
  room.producers.foldr
    (fun (entry : String × List (PKind × Producer)) acc =>
      match alGet entry.2 .audio, alGet entry.2 .video with
      | some a, some v => (a, v) :: acc
      | _, _ => acc)
    []

/-- Line 113: `producersArray.map(p => p.audio.id + "," + p.video.id).sort().join("|")`,
modelled as the sorted id-pair list. -/
def fingerprint (pairs : List (Producer × Producer)) : List (Nat × Nat) :=
  sortPairs (pairs.map fun p => (p.1.id, p.2.id))

/-- Source: `getEvenPort` (lines 44-49): probe for a free port until the probe yields
an even value.  `probe k` is the `k`-th answer of the external `getPort`
call; the source loop is `while (true)`, so termination is fuel-indexed and
`none` models an allocation that never produces an even port (or a probe
failure). -/
def getEvenPort (probe : Nat → Nat) : Nat → Nat → Option Nat
  | 0, _ => none
  | fuel + 1, k =>
      let port := probe k
      if port % 2 = 0 then some port else getEvenPort probe fuel (k + 1)

/-- The configured audio egress port range (line 125). -/
def audioRange : Nat × Nat := (10102, 10200)

/-- The configured video egress port range (line 126). -/
def videoRange : Nat × Nat := (10202, 10300)

/-- Externally visible effects performed by one execution of
`restartRoomHls`, recorded in program order. -/
inductive HAct where
  | killProc (pid : Nat)
  | closeTr (tid : Nat)
  | allocPort (isAudio : Bool) (rtp rtcp : Nat)
  | createTr (tid : Nat)
  | writeSdp (audioPairs videoPairs : List PortPair)
  | spawnProc (pid : Nat)
  | connectTr (tid rtp rtcp : Nat)
  | consume (tid pid : Nat)
  | commit
deriving DecidableEq, Repr

/-- Oracles for the external calls made during a rebuild.  Indices count
calls of each kind within the rebuild: `audioProbe i k` is the `k`-th
`getPort` answer of candidate `i`'s audio allocation, `trOk j` and `trId j`
describe the `j`-th `createPlainTransport` call, `connectOk j` the `j`-th
plain-transport `connect`, `consumeOk j` the `j`-th `consume`. -/
structure Env where
  audioProbe : Nat → Nat → Nat
  videoProbe : Nat → Nat → Nat
  portFuel : Nat
  trId : Nat → Nat
  trOk : Nat → Bool
  spawnOk : Bool
  spawnPid : Nat
  connectOk : Nat → Bool
  consumeOk : Nat → Bool

/-- Teardown effects of lines 105-106 / 117-118: kill the ffmpeg process (if
any) first, then close every egress plain transport, audio before video. -/
def teardownActs (room : Room) : List HAct :=
  (match room.hlsFfmpegProcess with
   | some pid => [HAct.killProc pid]
   | none => []) ++
  (match room.hlsPlainTransports with
   | some ts => ts.foldr (fun t acc => HAct.closeTr t.audioTr :: HAct.closeTr t.videoTr :: acc) []
   | none => [])

/-- State effect of lines 107-108 / 119-120: both handles are cleared. -/
def teardownRoom (room : Room) : Room :=
  { room with hlsFfmpegProcess := none, hlsPlainTransports := none }

/-- Lines 124-137: for each of `n` candidates, draw an even audio RTP port
(RTCP is `rtp + 1`), an even video RTP port, then create the unconnected
audio and video plain transports.  Returns the trace of performed effects
and, on success, the port-pair lists and transport pairs in order. -/
def allocLoop (env : Env) : Nat → Nat →
    List HAct × Option (List PortPair × List PortPair × List TrPair)
  | 0, _ => ([], some ([], [], []))
  | n + 1, i =>
      match getEvenPort (env.audioProbe i) env.portFuel 0 with
      | none => ([], none)
      | some aRtp =>
          match getEvenPort (env.videoProbe i) env.portFuel 0 with
          | none => ([HAct.allocPort true aRtp (aRtp + 1)], none)
          | some vRtp =>
              let acts₀ := [HAct.allocPort true aRtp (aRtp + 1),
                            HAct.allocPort false vRtp (vRtp + 1)]
              if env.trOk (2 * i) then
                let aTid := env.trId (2 * i)
                if env.trOk (2 * i + 1) then
                  let vTid := env.trId (2 * i + 1)
                  let acts₁ := acts₀ ++ [HAct.createTr aTid, HAct.createTr vTid]
                  match allocLoop env n (i + 1) with
                  | (acts₂, some (aps, vps, ts)) =>
                      (acts₁ ++ acts₂,
                       some (⟨aRtp, aRtp + 1⟩ :: aps, ⟨vRtp, vRtp + 1⟩ :: vps,
                             ⟨aTid, vTid⟩ :: ts))
                  | (acts₂, none) => (acts₁ ++ acts₂, none)
                else (acts₀ ++ [HAct.createTr aTid], none)
              else (acts₀, none)

/-- Lines 146-153: connect each egress transport pair to its ffmpeg-facing
ports, audio then video, in candidate order.  Returns the trace and whether
every connect succeeded. -/
def connectLoop (env : Env) : List (TrPair × PortPair × PortPair) → Nat → List HAct × Bool
  | [], _ => ([], true)
  | (t, ap, vp) :: rest, i =>
      if env.connectOk (2 * i) then
        let a₁ := HAct.connectTr t.audioTr ap.rtp ap.rtcp
        if env.connectOk (2 * i + 1) then
          let a₂ := HAct.connectTr t.videoTr vp.rtp vp.rtcp
          let (acts, ok) := connectLoop env rest (i + 1)
          (a₁ :: a₂ :: acts, ok)
        else ([a₁], false)
      else ([], false)

/-- Lines 156-177: create one audio and one video egress consumer per
candidate, bound to that candidate's producers.  The video keyframe retry
loop (`requestKeyFrameWithRetry`) swallows its own errors and cannot fail
the rebuild, so it contributes no failure mode here. -/
def consumeLoop (env : Env) : List (TrPair × (Producer × Producer)) → Nat → List HAct × Bool
  | [], _ => ([], true)
  | (t, pr) :: rest, i =>
      if env.consumeOk (2 * i) then
        let a₁ := HAct.consume t.audioTr pr.1.id
        if env.consumeOk (2 * i + 1) then
          let a₂ := HAct.consume t.videoTr pr.2.id
          let (acts, ok) := consumeLoop env rest (i + 1)
          (a₁ :: a₂ :: acts, ok)
        else ([a₁], false)
      else ([], false)

/-- Result of one `restartRoomHls` execution: the room state when the call
returns (normally or by throwing), whether it threw, and the effect trace. -/
structure HRes where
  room : Room
  failed : Bool
  trace : List HAct
deriving DecidableEq, Repr

/-- Source: `restartRoomHls` (lines 95-184), the full rebuild protocol.
Candidate computation, the empty short-circuit (teardown and clear the
fingerprint to the empty string), the fingerprint no-op short-circuit,
unconditional teardown, allocation, SDP write plus ffmpeg spawn
(`launchFfmpeg`), transport connects, consumer creation, and the final
state commit (lines 180-183). -/
def restartRoomHls (env : Env) (roomId : String) (room : Room) : HRes :=
  let pairs := candidatePairs room
  if pairs.isEmpty then
    { room := { teardownRoom room with lastHlsProducersKey := some [] },
      failed := false, trace := teardownActs room }
  else
    let key := fingerprint pairs
    if room.lastHlsProducersKey = some key then
      { room := room, failed := false, trace := [] }
    else
      let acts₀ := teardownActs room
      let room₁ := teardownRoom room
      match allocLoop env pairs.length 0 with
      | (acts₁, none) => { room := room₁, failed := true, trace := acts₀ ++ acts₁ }
      | (acts₁, some (aps, vps, ts)) =>
          if env.spawnOk then
            let acts₂ := [HAct.writeSdp aps vps, HAct.spawnProc env.spawnPid]
            match connectLoop env (ts.zip (aps.zip vps)) 0 with
            | (acts₃, false) =>
                { room := room₁, failed := true, trace := acts₀ ++ acts₁ ++ acts₂ ++ acts₃ }
            | (acts₃, true) =>
                match consumeLoop env (ts.zip pairs) 0 with
                | (acts₄, false) =>
                    { room := room₁, failed := true,
                      trace := acts₀ ++ acts₁ ++ acts₂ ++ acts₃ ++ acts₄ }
                | (acts₄, true) =>
                    { room := { room₁ with
                                  hlsPlainTransports := some ts,
                                  hlsFfmpegProcess := some env.spawnPid,
                                  hlsDir := some ("hls/" ++ roomId),
                                  lastHlsProducersKey := some key },
                      failed := false,
                      trace := acts₀ ++ acts₁ ++ acts₂ ++ acts₃ ++ acts₄ ++ [HAct.commit] }
          else { room := room₁, failed := true, trace := acts₀ ++ acts₁ }

/-- Protocol phase of an effect, used to state the strict step ordering of
the rebuild: teardown (kill then close), allocate and create, write the
session description, start the process, connect, consume, commit. -/
def phase : HAct → Nat
  | .killProc _ => 0
  | .closeTr _ => 1
  | .allocPort _ _ _ => 2
  | .createTr _ => 2
  | .writeSdp _ _ => 3
  | .spawnProc _ => 4
  | .connectTr _ _ _ => 5
  | .consume _ _ => 6
  | .commit => 7

/-- Recognizer for the process-start effect. -/
def isSpawn : HAct → Bool
  | .spawnProc _ => true
  | _ => false

/-- Recognizer for an egress-transport connect effect. -/
def isConnect : HAct → Bool
  | .connectTr _ _ _ => true
  | _ => false

/-!
Orchestrator state machine (`safeRestartRoomHls`, lines 72-89, plus the
`hlsRestarting` map, line 33).  A rebuild body runs across `await` yield
points, so other handlers for the same room interleave with it; the flag
logic is the only serialization.  We abstract one room's view to:
`restarting` (the `hlsRestarting` entry), `pending` (`room.__pendingRestart`),
`inFlight` (how many `restartRoomHls` bodies are currently executing),
`started` (the producer-state snapshot each rebuild read when it started,
in start order) and `prods` (the current producer state, abstracted to a
generation number — `restartRoomHls` reads it at its first line).
-/

/-- Per-room orchestrator state. -/
structure OrchSt where
  restarting : Bool
  pending : Bool
  inFlight : Nat
  started : List Nat
  prods : Nat
deriving DecidableEq, Repr

/-- Events of the orchestrator: a call to `safeRestartRoomHls` (`trigger`),
the return of a running `restartRoomHls` body, i.e. the `finally` block
(`complete`), and a mutation of the room's producer state by some other
handler (`setProds`). -/
inductive OEvent where
  | trigger
  | complete
  | setProds (p : Nat)
deriving DecidableEq, Repr

/-- One event.  `trigger` follows lines 73-79: if the room is restarting,
only set the pending flag; otherwise mark restarting and start a rebuild,
which snapshots the current producer state.  `complete` follows the
`finally` block, lines 82-88: clear the restarting flag; if the pending
flag is set, clear it and re-enter `safeRestartRoomHls`, which — the
restarting flag having just been cleared, with no yield point in between —
immediately starts one rebuild against the now-current producer state. -/
def ostep (s : OrchSt) : OEvent → OrchSt
  | .setProds p => { s with prods := p }
  | .trigger =>
      if s.restarting then { s with pending := true }
      else { s with restarting := true, inFlight := s.inFlight + 1,
                    started := s.started ++ [s.prods] }
  | .complete =>
      let s₁ := { s with restarting := false, inFlight := s.inFlight - 1 }
      if s₁.pending then
        { s₁ with pending := false, restarting := true, inFlight := s₁.inFlight + 1,
                  started := s₁.started ++ [s₁.prods] }
      else s₁

/-- Run a sequence of events. -/
def orun (s : OrchSt) : List OEvent → OrchSt
  | [] => s
  | e :: es => orun (ostep s e) es

/-- An event sequence is valid from `s` when every `complete` is the return
of a rebuild that is actually running (the flag logic never loses track: a
body is running exactly while its `hlsRestarting` entry is set). -/
def validFrom (s : OrchSt) : List OEvent → Bool
  | [] => true
  | e :: es =>
      (match e with
       | .complete => s.restarting
       | _ => true) && validFrom (ostep s e) es

/-- The state of a fresh room: no rebuild running, no pending flag. -/
def orchInit : OrchSt := ⟨false, false, 0, [], 0⟩

/-- Reachability invariant of the flag logic: the in-flight count is tied to
the restarting flag (hence never exceeds one), and the pending flag is only
ever set while a rebuild is in flight. -/
def OInv (s : OrchSt) : Prop :=
  s.inFlight = (if s.restarting then 1 else 0) ∧ (s.pending = true → s.restarting = true)

/-!
Session-facing handlers used by the remaining claims.
-/

/-- The rooms registry, line 32: `const rooms: Rooms = new Map()`. -/
abbrev RoomsMap := List (String × Room)

/-- Callback payload of `handleCreateTransport`: either an error object or
the created transport (identified here by its id; the ICE/DTLS fields ride
along with the handle). -/
inductive CreateTrRes where
  | err (msg : String)
  | ok (id : Nat)
deriving DecidableEq, Repr

/-- Source: `handleCreateTransport` (lines 216-232).  `newTrId` is the id of
the transport the router's `createWebRtcTransport` call returns; the handler
always performs that call and then `room.transports.set(...)`, overwriting
any transport previously registered for `(socket.id, kind)`. -/
def handleCreateTransport (rooms : RoomsMap) (roomId sid : String) (kind : TKind)
    (newTrId : Nat) : RoomsMap × CreateTrRes :=
  match alGet rooms roomId with
  | none => (rooms, .err "Room does not exist")
  | some room =>
      let room' := { room with
        transports := alSet room.transports (transportKey sid kind) newTrId }
      (alSet rooms roomId room', .ok newTrId)

/-- Printed name of a transport kind, used in the not-found error message. -/
def tkindStr : TKind → String
  | .producer => "producer"
  | .consumer => "consumer"

/-- Outcome of `handleConnectTransport` as seen by the requesting session. -/
inductive ConnectRes where
  | cbErr (msg : String)
  | cbOk
  | unhandledRejection
deriving DecidableEq, Repr

/-- Source: `handleConnectTransport` (lines 234-241).  `engineAccepts` is
whether `transport.connect({ dtlsParameters })` resolves.  The handler has
no try/catch around that call and the socket registration (line 413/415)
does not catch either, so a rejected connect becomes an unhandled promise
rejection: the callback is never invoked. -/
def handleConnectTransport (rooms : RoomsMap) (roomId sid : String) (kind : TKind)
    (engineAccepts : Bool) : ConnectRes :=
  match alGet rooms roomId with
  | none => .cbErr "Room does not exist"
  | some room =>
      match alGet room.transports (transportKey sid kind) with
      | none => .cbErr (tkindStr kind ++ " transport not found")
      | some _ => if engineAccepts then .cbOk else .unhandledRejection

/-- Producer bookkeeping effects of `handleProduce`, in program order. -/
inductive PAct where
  | closeProd (id : Nat)
  | register (id : Nat)
deriving DecidableEq, Repr

/-- Callback payload of `handleProduce`. -/
inductive ProduceRes where
  | err (msg : String)
  | ok (id : Nat)
deriving DecidableEq, Repr

/-- Convenience: the producer registered for `(sid, kind)` in a room. -/
def lookupProducer (room : Room) (sid : String) (kind : PKind) : Option Producer :=
  match alGet room.producers sid with
  | none => none
  | some m => alGet m kind

/-- Core of `handleProduce` once the room and the producer transport are
resolved (lines 254-282).  An existing open producer of the same kind is
closed first (lines 260-263); its `"@close"` handler (lines 286-296) fires
synchronously and, because the closed producer is exactly the one
registered, unregisters it (dropping the session entry if the kind map
became empty).  Then the fresh producer `{ id := newId, closed := false }`
returned by `transport.produce` is registered (lines 270-275: the local
kind-map alias and the re-registration on the room converge to the same
final map, so the registration is modelled once against the current room
state). -/
def produceCore (room : Room) (sid : String) (kind : PKind) (newId : Nat) :
    Room × List PAct :=
  let m₀ := (alGet room.producers sid).getD []
  let room₀ := match alGet room.producers sid with
               | some _ => room
               | none => { room with producers := alSet room.producers sid [] }
  let closeStep : Room × List PAct :=
    match alGet m₀ kind with
    | some old =>
        if old.closed = false then
          let m' := alDel m₀ kind
          (if m' = [] then { room₀ with producers := alDel room₀.producers sid }
           else { room₀ with producers := alSet room₀.producers sid m' },
           [PAct.closeProd old.id])
        else (room₀, [])
    | none => (room₀, [])
  let room₁ := closeStep.1
  let p : Producer := { id := newId, closed := false }
  let m₁ := (alGet room₁.producers sid).getD []
  let room₂ := { room₁ with producers := alSet room₁.producers sid (alSet m₁ kind p) }
  (room₂, closeStep.2 ++ [PAct.register newId])

/-- Source: `handleProduce` (lines 243-299).  `newId` is the id of the
producer `transport.produce` returns. -/
def handleProduce (rooms : RoomsMap) (roomId sid : String) (kind : PKind)
    (newId : Nat) : RoomsMap × ProduceRes × List PAct :=
  match alGet rooms roomId with
  | none => (rooms, .err "Room does not exist", [])
  | some room =>
      match alGet room.transports (transportKey sid .producer) with
      | none => (rooms, .err "Producer transport not found", [])
      | some _ =>
          let r := produceCore room sid kind newId
          (alSet rooms roomId r.1, .ok newId, r.2)

/-- Source: `handleListProducers` (lines 315-329): iterate every session's
kind map in room order, skip the requesting session, and report each
producer that is not closed as `{ userId, producerId, kind }`. -/
def handleListProducers (rooms : RoomsMap) (roomId sid : String) :
    Option (List (String × Nat × PKind)) :=
  match alGet rooms roomId with
  | none => none
  | some room =>
      some ((room.producers.filter (fun e => e.1 ≠ sid)).flatMap
        fun e => e.2.filterMap fun kp =>
          if kp.2.closed then none else some (e.1, kp.2.id, kp.1))

/-!
Helper lemmas about the association-list operations.
-/

lemma alGet_alSet_self {α β : Type} [DecidableEq α] (l : List (α × β)) (k : α) (v : β) :
    alGet (alSet l k v) k = some v := by
  induction l with
  | nil => simp [alGet, alSet]
  | cons hd tl ih =>
      by_cases h : hd.1 = k
      · simp [alSet, alGet, h]
      · simp [alSet, alGet, h, ih]

lemma alGet_alSet_ne {α β : Type} [DecidableEq α] (l : List (α × β)) (k k' : α) (v : β)
    (h : k' ≠ k) : alGet (alSet l k v) k' = alGet l k' := by
  induction l with
  | nil => simp [alGet, alSet, Ne.symm h]
  | cons hd tl ih =>
      by_cases hk : hd.1 = k
      · have hne : ¬ hd.1 = k' := by rw [hk]; exact Ne.symm h
        simp [alSet, alGet, hk, hne, Ne.symm h]
      · simp [alSet, alGet, hk, ih]

lemma alGet_alDel_self {α β : Type} [DecidableEq α] (l : List (α × β)) (k : α) :
    alGet (alDel l k) k = none := by
  induction l with
  | nil => simp [alGet, alDel]
  | cons hd tl ih =>
      by_cases h : hd.1 = k
      · simp [alDel, h, ih]
      · simp [alDel, alGet, h, ih]

lemma alGet_alDel_ne {α β : Type} [DecidableEq α] (l : List (α × β)) (k k' : α)
    (h : k' ≠ k) : alGet (alDel l k) k' = alGet l k' := by
  induction l with
  | nil => simp [alGet, alDel]
  | cons hd tl ih =>
      by_cases hk : hd.1 = k
      · have hne : ¬ hd.1 = k' := by rw [hk]; exact Ne.symm h
        simp [alDel, alGet, hk, hne, Ne.symm h, ih]
      · simp [alDel, alGet, hk, ih]

/-!
Orchestrator flag-logic lemmas.
-/

lemma oinv_ostep {s : OrchSt} (h : OInv s) (e : OEvent)
    (hv : e = OEvent.complete → s.restarting = true) : OInv (ostep s e) := by
  obtain ⟨h1, h2⟩ := h
  cases e with
  | setProds p => exact ⟨h1, h2⟩
  | trigger =>
      unfold OInv
      by_cases hr : s.restarting = true
      · refine ⟨?_, ?_⟩ <;> simp_all [ostep, hr]
      · have hr' : s.restarting = false := by simpa using hr
        have hp : s.pending = false := by
          cases hpp : s.pending
          · rfl
          · exact absurd (h2 hpp) (by simp [hr'])
        have h1' : s.inFlight = 0 := by simpa [hr'] using h1
        refine ⟨?_, ?_⟩ <;> simp [ostep, hr', h1', hp]
  | complete =>
      unfold OInv
      have hr : s.restarting = true := hv rfl
      have hif : s.inFlight = 1 := by simpa [hr] using h1
      cases hp : s.pending <;>
        refine ⟨?_, ?_⟩ <;> simp [ostep, hp, hif]

lemma oinv_orun {es : List OEvent} : ∀ {s : OrchSt}, OInv s → validFrom s es = true →
    OInv (orun s es) := by
  induction es with
  | nil => intro s h _; exact h
  | cons e rest ih =>
      intro s h hv
      simp only [validFrom, Bool.and_eq_true] at hv
      refine ih (oinv_ostep h e ?_) hv.2
      intro he
      subst he
      simpa using hv.1

lemma orun_burst {es : List OEvent} : ∀ {s : OrchSt}, s.restarting = true →
    (∀ e ∈ es, e ≠ OEvent.complete) →
    (orun s es).restarting = true ∧ (orun s es).started = s.started ∧
    (orun s es).inFlight = s.inFlight ∧
    ((orun s es).pending = true ↔ (s.pending = true ∨ OEvent.trigger ∈ es)) := by
  induction es with
  | nil => intro s hr _; simp [orun, hr]
  | cons e rest ih =>
      intro s hr hnc
      have hnc' : ∀ e' ∈ rest, e' ≠ OEvent.complete :=
        fun e' he' => hnc e' (List.mem_cons_of_mem _ he')
      cases e with
      | trigger =>
          have hstep : ostep s OEvent.trigger = { s with pending := true } := by
            simp [ostep, hr]
          have hrec := ih (s := { s with pending := true }) hr hnc'
          have hrun : orun s (OEvent.trigger :: rest) = orun { s with pending := true } rest := by
            simp [orun, hstep]
          rw [hrun]
          refine ⟨hrec.1, hrec.2.1, hrec.2.2.1, ?_⟩
          rw [hrec.2.2.2]
          simp
      | setProds p =>
          have hrec := ih (s := { s with prods := p }) hr hnc'
          have hrun : orun s (OEvent.setProds p :: rest) = orun { s with prods := p } rest := rfl
          rw [hrun]
          refine ⟨hrec.1, hrec.2.1, hrec.2.2.1, ?_⟩
          rw [hrec.2.2.2]
          simp
      | complete => exact absurd rfl (hnc OEvent.complete (List.mem_cons_self _ _))

/-- C1: a trigger while a room is idle starts a rebuild immediately
(snapshotting the current producer state); a trigger while a rebuild is in
progress only sets the pending flag; and for any burst of triggers and
producer-state changes arriving during one rebuild (at least one trigger,
no completion), no new rebuild starts during the burst, and when the
running rebuild completes exactly one further rebuild starts immediately,
snapshotting the producer state current at that moment — after which a
final completion leaves nothing in flight, so a burst of N ≥ 1 triggers
yields exactly one additional rebuild, never N. -/
theorem rebuild_trigger_coalescing :
    (∀ s : OrchSt, s.restarting = false →
        ostep s OEvent.trigger =
          { s with restarting := true, inFlight := s.inFlight + 1,
                   started := s.started ++ [s.prods] }) ∧
    (∀ s : OrchSt, s.restarting = true →
        ostep s OEvent.trigger = { s with pending := true }) ∧
    (∀ (p₀ : Nat) (burst : List OEvent), OEvent.trigger ∈ burst →
        (∀ e ∈ burst, e ≠ OEvent.complete) →
        (orun (ostep { orchInit with prods := p₀ } OEvent.trigger) burst).started = [p₀] ∧
        (orun (ostep { orchInit with prods := p₀ } OEvent.trigger) burst).restarting = true ∧
        (orun (ostep { orchInit with prods := p₀ } OEvent.trigger) burst).pending = true ∧
        ostep (orun (ostep { orchInit with prods := p₀ } OEvent.trigger) burst) OEvent.complete =
          { restarting := true, pending := false, inFlight := 1,
            started := [p₀,
              (orun (ostep { orchInit with prods := p₀ } OEvent.trigger) burst).prods],
            prods := (orun (ostep { orchInit with prods := p₀ } OEvent.trigger) burst).prods } ∧
        (ostep (ostep (orun (ostep { orchInit with prods := p₀ } OEvent.trigger) burst)
            OEvent.complete) OEvent.complete).inFlight = 0 ∧
        (ostep (ostep (orun (ostep { orchInit with prods := p₀ } OEvent.trigger) burst)
            OEvent.complete) OEvent.complete).started = [p₀,
              (orun (ostep { orchInit with prods := p₀ } OEvent.trigger) burst).prods]) := by
  refine ⟨?_, ?_, ?_⟩
  · intro s hs
    simp [ostep, hs]
  · intro s hs
    simp [ostep, hs]
  · intro p₀ burst htrig hnc
    set s₁ := ostep { orchInit with prods := p₀ } OEvent.trigger with hs₁
    have hs₁v : s₁ = ⟨true, false, 1, [p₀], p₀⟩ := by
      rw [hs₁]
      simp [ostep, orchInit]
    have hb := @orun_burst burst s₁ (by rw [hs₁v]) hnc
    have hpend : (orun s₁ burst).pending = true := by
      rw [hb.2.2.2]
      exact Or.inr htrig
    have hst : (orun s₁ burst).started = [p₀] := by rw [hb.2.1, hs₁v]
    have hif : (orun s₁ burst).inFlight = 1 := by rw [hb.2.2.1, hs₁v]
    have hstep : ostep (orun s₁ burst) OEvent.complete =
        { restarting := true, pending := false, inFlight := 1,
          started := [p₀, (orun s₁ burst).prods], prods := (orun s₁ burst).prods } := by
      simp [ostep, hpend, hif, hst]
    refine ⟨hst, hb.1, hpend, hstep, ?_, ?_⟩
    · rw [hstep]
      simp [ostep]
    · rw [hstep]
      simp [ostep]

/-- Witness for `rebuild_trigger_coalescing`: a concrete burst of two
triggers with an interleaved producer change coalesces into one further
rebuild snapshotting the final producer state. -/
theorem rebuild_trigger_coalescing_witness :
    OEvent.trigger ∈ [OEvent.trigger, OEvent.setProds 7, OEvent.trigger] ∧
    (∀ e ∈ [OEvent.trigger, OEvent.setProds 7, OEvent.trigger], e ≠ OEvent.complete) ∧
    (orun (ostep { orchInit with prods := 3 } OEvent.trigger)
        [OEvent.trigger, OEvent.setProds 7, OEvent.trigger]).started = [3] ∧
    ostep (orun (ostep { orchInit with prods := 3 } OEvent.trigger)
        [OEvent.trigger, OEvent.setProds 7, OEvent.trigger]) OEvent.complete =
      { restarting := true, pending := false, inFlight := 1, started := [3, 7], prods := 7 } := by
  have h := rebuild_trigger_coalescing.2.2 3 [OEvent.trigger, OEvent.setProds 7, OEvent.trigger]
    (by decide) (by decide)
  refine ⟨by decide, by decide, h.1, ?_⟩
  rw [h.2.2.2.1]
  decide

/-- C3 counterexample: the trace `trigger, trigger` is valid (the second
trigger arrives while the first rebuild is running), and it leaves the
`restarting` flag and the `pendingRestart` flag both set at once — the two
flags are not mutually exclusive. -/
theorem restarting_pending_both_set :
    validFrom orchInit [OEvent.trigger, OEvent.trigger] = true ∧
    (orun orchInit [OEvent.trigger, OEvent.trigger]).restarting = true ∧
    (orun orchInit [OEvent.trigger, OEvent.trigger]).pending = true := by
  decide

/-- C3 (amended): in every reachable orchestrator state the pending-restart
flag implies the restarting flag (they are simultaneously set whenever a
trigger arrives mid-rebuild, so they are not mutually exclusive), and at
most one rebuild executes per room at any time. -/
theorem restarting_serializes_rebuilds (es : List OEvent)
    (hv : validFrom orchInit es = true) :
    ((orun orchInit es).pending = true → (orun orchInit es).restarting = true) ∧
    (orun orchInit es).inFlight ≤ 1 := by
  have h := @oinv_orun es orchInit (by constructor <;> simp [orchInit]) hv
  refine ⟨h.2, ?_⟩
  rw [h.1]
  by_cases hr : (orun orchInit es).restarting <;> simp [hr]

/-- Witness for `restarting_serializes_rebuilds` on a concrete valid trace. -/
theorem restarting_serializes_rebuilds_witness :
    validFrom orchInit [OEvent.trigger, OEvent.trigger, OEvent.complete, OEvent.complete] = true ∧
    ((orun orchInit [OEvent.trigger, OEvent.trigger, OEvent.complete, OEvent.complete]).pending = true →
      (orun orchInit [OEvent.trigger, OEvent.trigger, OEvent.complete,
        OEvent.complete]).restarting = true) ∧
    (orun orchInit [OEvent.trigger, OEvent.trigger, OEvent.complete,
      OEvent.complete]).inFlight ≤ 1 :=
  ⟨by decide,
   (restarting_serializes_rebuilds
     [OEvent.trigger, OEvent.trigger, OEvent.complete, OEvent.complete] (by decide)).1,
   (restarting_serializes_rebuilds
     [OEvent.trigger, OEvent.trigger, OEvent.complete, OEvent.complete] (by decide)).2⟩

/-!
Claims C6 and C7: transport creation and connection.
-/

/-- The transport currently registered for `(sid, kind)` in room `rid`. -/
def trOf (rooms : RoomsMap) (rid sid : String) (kind : TKind) : Option Nat :=
  match alGet rooms rid with
  | none => none
  | some room => alGet room.transports (transportKey sid kind)

/-- A concrete room: session `"s"` with a producer transport of id 5 already
registered for `("s", producer)`, and no producers. -/
def exRoomA : Room :=
  { users := ["s"], transports := [(("s", TKind.producer), 5)], producers := [] }

/-- A concrete registry holding `exRoomA` under id `"r"`. -/
def exRoomsA : RoomsMap := [("r", exRoomA)]

/-- C6 counterexample: with transport 5 already registered for
`("s", producer)`, a second `createTransport` call does not return the
existing transport — it returns the freshly created transport 7 and
registers it in place of 5. -/
theorem create_transport_not_idempotent :
    trOf exRoomsA "r" "s" TKind.producer = some 5 ∧
    (handleCreateTransport exRoomsA "r" "s" TKind.producer 7).2 = CreateTrRes.ok 7 ∧
    trOf (handleCreateTransport exRoomsA "r" "s" TKind.producer 7).1 "r" "s"
      TKind.producer = some 7 := by
  decide

/-- C6 (amended): `createTransport` is not idempotent per (session, kind):
whenever the room exists it creates a new transport and registers it under
`(session, kind)`, overwriting (without closing) any previously registered
transport and returning the new one; it fails with a room-not-found error
when the room is absent. -/
theorem create_transport_always_creates (rooms : RoomsMap) (rid sid : String)
    (kind : TKind) (newTrId : Nat) :
    (alGet rooms rid = none →
        handleCreateTransport rooms rid sid kind newTrId =
          (rooms, CreateTrRes.err "Room does not exist")) ∧
    (∀ room, alGet rooms rid = some room →
        (handleCreateTransport rooms rid sid kind newTrId).2 = CreateTrRes.ok newTrId ∧
        trOf (handleCreateTransport rooms rid sid kind newTrId).1 rid sid kind =
          some newTrId ∧
        (∀ sid' kind', (sid', kind') ≠ transportKey sid kind →
            trOf (handleCreateTransport rooms rid sid kind newTrId).1 rid sid' kind' =
              alGet room.transports (sid', kind'))) := by
  constructor
  · intro hnone
    simp [handleCreateTransport, hnone]
  · intro room hroom
    refine ⟨?_, ?_, ?_⟩
    · simp [handleCreateTransport, hroom]
    · simp [handleCreateTransport, trOf, hroom, alGet_alSet_self]
    · intro sid' kind' hne
      simp [handleCreateTransport, trOf, hroom, alGet_alSet_self]
      exact alGet_alSet_ne _ _ _ _ hne

/-- Witness for `create_transport_always_creates` at the concrete registry:
the room is present, and the call overwrites transport 5 with 7 while the
consumer slot stays untouched. -/
theorem create_transport_always_creates_witness :
    alGet exRoomsA "r" = some exRoomA ∧
    (handleCreateTransport exRoomsA "r" "s" TKind.producer 7).2 = CreateTrRes.ok 7 ∧
    trOf (handleCreateTransport exRoomsA "r" "s" TKind.producer 7).1 "r" "s"
      TKind.producer = some 7 := by
  have h := (create_transport_always_creates exRoomsA "r" "s" TKind.producer 7).2
    exRoomA (by decide)
  exact ⟨by decide, h.1, h.2.1⟩

/-- C7 counterexample: room and transport both exist, the engine rejects the
DTLS parameters — the call ends as an unhandled promise rejection, not as an
error payload delivered to the requester. -/
theorem connect_transport_rejection_unreported :
    handleConnectTransport exRoomsA "r" "s" TKind.producer false =
      ConnectRes.unhandledRejection := by
  decide

/-- C7 (amended): `connectTransport` returns a room-not-found error when the
room is absent and a transport-not-found error when no transport was created
for the (session, kind) pair; but when the engine rejects the DTLS handshake
parameters, the rejection propagates as an unhandled promise rejection and
no response of any kind is delivered to the requesting session. -/
theorem connect_transport_outcomes (rooms : RoomsMap) (rid sid : String)
    (kind : TKind) (engineAccepts : Bool) :
    (alGet rooms rid = none →
        handleConnectTransport rooms rid sid kind engineAccepts =
          ConnectRes.cbErr "Room does not exist") ∧
    (∀ room, alGet rooms rid = some room →
        (alGet room.transports (transportKey sid kind) = none →
            handleConnectTransport rooms rid sid kind engineAccepts =
              ConnectRes.cbErr (tkindStr kind ++ " transport not found")) ∧
        (∀ t, alGet room.transports (transportKey sid kind) = some t →
            handleConnectTransport rooms rid sid kind engineAccepts =
              (if engineAccepts then ConnectRes.cbOk else ConnectRes.unhandledRejection))) := by
  constructor
  · intro hnone
    simp [handleConnectTransport, hnone]
  · intro room hroom
    constructor
    · intro hnotr
      simp [handleConnectTransport, hroom, hnotr]
    · intro t htr
      simp [handleConnectTransport, hroom, htr]

/-- Witness for `connect_transport_outcomes`: on the concrete registry the
missing consumer transport yields the not-found error payload, and the
present producer transport with a rejecting engine yields an unhandled
rejection. -/
theorem connect_transport_outcomes_witness :
    alGet exRoomsA "r" = some exRoomA ∧
    handleConnectTransport exRoomsA "r" "s" TKind.consumer false =
      ConnectRes.cbErr "consumer transport not found" ∧
    handleConnectTransport exRoomsA "r" "s" TKind.producer false =
      ConnectRes.unhandledRejection := by
  have h := (connect_transport_outcomes exRoomsA "r" "s" TKind.consumer false).2
    exRoomA (by decide)
  have h' := (connect_transport_outcomes exRoomsA "r" "s" TKind.producer false).2
    exRoomA (by decide)
  exact ⟨by decide, h.1 (by decide), h'.2 5 (by decide)⟩

/-!
Claim C8: produce keeps at most one open producer per (session, kind).
-/

lemma alSet_nil_get {α β : Type} [DecidableEq α] (k : α) (v : β) :
    alSet ([] : List (α × β)) k v = [(k, v)] := rfl

lemma produceCore_spec (room : Room) (sid : String) (kind : PKind) (newId : Nat) :
    lookupProducer (produceCore room sid kind newId).1 sid kind =
      some { id := newId, closed := false } ∧
    (∀ k, k ≠ kind →
        lookupProducer (produceCore room sid kind newId).1 sid k =
          lookupProducer room sid k) ∧
    (∀ old, lookupProducer room sid kind = some old → old.closed = false →
        (produceCore room sid kind newId).2 =
          [PAct.closeProd old.id, PAct.register newId]) ∧
    (lookupProducer room sid kind = none →
        (produceCore room sid kind newId).2 = [PAct.register newId]) := by
  unfold produceCore lookupProducer
  cases hm : alGet room.producers sid with
  | none =>
      refine ⟨?_, ?_, ?_, ?_⟩
      · simp [hm, alGet_alSet_self, alSet, alGet]
      · intro k hk
        simp [hm, alGet_alSet_self, alSet, alGet, Ne.symm hk]
      · intro old hold
        simp at hold
      · intro _
        simp [alGet]
  | some m =>
      cases ho : alGet m kind with
      | none =>
          refine ⟨?_, ?_, ?_, ?_⟩
          · simp [hm, ho, alGet_alSet_self]
          · intro k hk
            simp [hm, ho, alGet_alSet_self, alGet_alSet_ne _ _ _ _ hk]
          · intro old hold hcl
            simp [ho] at hold
          · intro _
            simp [hm, ho]
      | some old =>
          cases hc : old.closed with
          | true =>
              refine ⟨?_, ?_, ?_, ?_⟩
              · simp [hm, ho, hc, alGet_alSet_self]
              · intro k hk
                simp [hm, ho, hc, alGet_alSet_self, alGet_alSet_ne _ _ _ _ hk]
              · intro old' hold' hcl'
                simp only [ho, Option.some.injEq] at hold'
                subst hold'
                simp [hc] at hcl'
              · intro h
                simp [ho] at h
          | false =>
              by_cases hm' : alDel m kind = []
              · refine ⟨?_, ?_, ?_, ?_⟩
                · simp [hm, ho, hc, hm', alGet_alDel_self, alGet_alSet_self, alSet, alGet]
                · intro k hk
                  have hmk : alGet m k = none := by
                    rw [← alGet_alDel_ne m kind k hk, hm']
                    rfl
                  simp [hm, ho, hc, hm', alGet_alDel_self, alGet_alSet_self, alSet, alGet,
                    Ne.symm hk, hmk]
                · intro old' hold' hcl'
                  simp only [ho, Option.some.injEq] at hold'
                  subst hold'
                  simp [hm, ho, hc, hm']
                · intro h
                  simp [ho] at h
              · refine ⟨?_, ?_, ?_, ?_⟩
                · simp [hm, ho, hc, hm', alGet_alSet_self]
                · intro k hk
                  simp [hm, ho, hc, hm', alGet_alSet_self, alGet_alSet_ne _ _ _ _ hk,
                    alGet_alDel_ne m kind k hk]
                · intro old' hold' hcl'
                  simp only [ho, Option.some.injEq] at hold'
                  subst hold'
                  simp [hm, ho, hc, hm']
                · intro h
                  simp [ho] at h

/-- C8: when the room and the session's producer transport exist, `produce`
returns the fresh producer's id, the session's producer map afterwards holds
exactly the newly created (open) producer for the requested kind with all
other kinds untouched, and whenever an open producer of the same kind
already existed it is closed strictly before the new producer is registered
(trace `close old; register new`); with no prior producer the trace is just
the registration. -/
theorem produce_one_open_per_kind (rooms : RoomsMap) (rid sid : String) (kind : PKind)
    (newId : Nat) (room : Room)
    (hroom : alGet rooms rid = some room)
    (htr : alGet room.transports (transportKey sid TKind.producer) ≠ none) :
    (handleProduce rooms rid sid kind newId).2.1 = ProduceRes.ok newId ∧
    alGet (handleProduce rooms rid sid kind newId).1 rid =
      some (produceCore room sid kind newId).1 ∧
    lookupProducer (produceCore room sid kind newId).1 sid kind =
      some { id := newId, closed := false } ∧
    (∀ k, k ≠ kind →
        lookupProducer (produceCore room sid kind newId).1 sid k =
          lookupProducer room sid k) ∧
    (∀ old, lookupProducer room sid kind = some old → old.closed = false →
        (handleProduce rooms rid sid kind newId).2.2 =
          [PAct.closeProd old.id, PAct.register newId]) ∧
    (lookupProducer room sid kind = none →
        (handleProduce rooms rid sid kind newId).2.2 = [PAct.register newId]) := by
  obtain ⟨t, ht⟩ : ∃ t, alGet room.transports (transportKey sid TKind.producer) = some t := by
    cases h : alGet room.transports (transportKey sid TKind.producer) with
    | none => exact absurd h htr
    | some t => exact ⟨t, rfl⟩
  have hcall : handleProduce rooms rid sid kind newId =
      (alSet rooms rid (produceCore room sid kind newId).1, ProduceRes.ok newId,
       (produceCore room sid kind newId).2) := by
    simp only [handleProduce, hroom, ht]
  have hspec := produceCore_spec room sid kind newId
  rw [hcall]
  exact ⟨rfl, alGet_alSet_self _ _ _, hspec.1, hspec.2.1, hspec.2.2.1, hspec.2.2.2⟩

/-- A concrete room for the produce/list claims: the caller `"s"` has a
producer transport and an open audio producer 1; `"bob"` has an open audio
producer 2 and a closed video producer 3. -/
def exRoomB : Room :=
  { users := ["s", "bob"],
    transports := [(("s", TKind.producer), 5)],
    producers := [("s", [(PKind.audio, ⟨1, false⟩)]),
                  ("bob", [(PKind.audio, ⟨2, false⟩), (PKind.video, ⟨3, true⟩)])] }

/-- Registry holding `exRoomB` under id `"r"`. -/
def exRoomsB : RoomsMap := [("r", exRoomB)]

/-- Witness for `produce_one_open_per_kind`: producing audio again on `"s"`
(which already holds open audio producer 1) closes producer 1 before
registering the fresh producer 9, which is then the only audio producer of
`"s"`. -/
theorem produce_one_open_per_kind_witness :
    alGet exRoomsB "r" = some exRoomB ∧
    alGet exRoomB.transports (transportKey "s" TKind.producer) ≠ none ∧
    lookupProducer exRoomB "s" PKind.audio = some ⟨1, false⟩ ∧
    (handleProduce exRoomsB "r" "s" PKind.audio 9).2.1 = ProduceRes.ok 9 ∧
    lookupProducer (produceCore exRoomB "s" PKind.audio 9).1 "s" PKind.audio =
      some { id := 9, closed := false } ∧
    (handleProduce exRoomsB "r" "s" PKind.audio 9).2.2 =
      [PAct.closeProd 1, PAct.register 9] := by
  have h := produce_one_open_per_kind exRoomsB "r" "s" PKind.audio 9 exRoomB
    (by decide) (by decide)
  exact ⟨by decide, by decide, by decide, h.1, h.2.2.1,
    h.2.2.2.2.1 ⟨1, false⟩ (by decide) (by decide)⟩

/-!
Claim C10: listProducers reports exactly the open producers of other
sessions.
-/

/-- C10: the list returned by `listProducers` contains `(u, pid, k)` exactly
when `u` is a session other than the caller whose kind map registers for
kind `k` a producer with id `pid` that is not closed — so no closed producer
and none of the caller's own producers are ever reported, and every open
producer of every other session is. -/
theorem list_producers_exact (rooms : RoomsMap) (rid sid : String) (room : Room)
    (hroom : alGet rooms rid = some room) :
    handleListProducers rooms rid sid =
      some ((room.producers.filter (fun e => e.1 ≠ sid)).flatMap
        fun e => e.2.filterMap fun kp =>
          if kp.2.closed then none else some (e.1, kp.2.id, kp.1)) ∧
    ∀ (u : String) (pid : Nat) (k : PKind),
      (u, pid, k) ∈ ((room.producers.filter (fun e => e.1 ≠ sid)).flatMap
        fun e => e.2.filterMap fun kp =>
          if kp.2.closed then none else some (e.1, kp.2.id, kp.1)) ↔
      (u ≠ sid ∧ ∃ m p, (u, m) ∈ room.producers ∧ (k, p) ∈ m ∧
        p.closed = false ∧ p.id = pid) := by
  constructor
  · unfold handleListProducers
    rw [hroom]
  · intro u pid k
    simp only [List.mem_flatMap, List.mem_filter, List.mem_filterMap]
    constructor
    · rintro ⟨e, ⟨he, hne⟩, kp, hkp, hif⟩
      have hne' : e.1 ≠ sid := by simpa using hne
      cases hc : kp.2.closed with
      | true => rw [hc] at hif; simp at hif
      | false =>
          rw [hc] at hif
          simp only [if_neg (by simp : ¬ (false = true))] at hif
          injection hif with hif
          obtain ⟨h1, h2, h3⟩ : e.1 = u ∧ kp.2.id = pid ∧ kp.1 = k := by
            have := Prod.mk.injEq .. ▸ hif
            exact ⟨congrArg Prod.fst hif, by
              have := congrArg Prod.snd hif
              exact ⟨congrArg Prod.fst this, congrArg Prod.snd this⟩⟩
          refine ⟨h1 ▸ hne', e.2, kp.2, ?_, ?_, hc, h2⟩
          · rw [← h1]
            simpa using he
          · rw [← h3]
            simpa using hkp
    · rintro ⟨hu, m, p, hm, hp, hcl, hid⟩
      refine ⟨(u, m), ⟨hm, by simpa using hu⟩, (k, p), hp, ?_⟩
      rw [hcl]
      simp only [if_neg (by simp : ¬ (false = true))]
      rw [hid]

/-- Witness for `list_producers_exact`: in the concrete room, caller `"s"`
sees exactly `("bob", 2, audio)` — not its own audio producer 1 and not
bob's closed video producer 3. -/
theorem list_producers_exact_witness :
    alGet exRoomsB "r" = some exRoomB ∧
    handleListProducers exRoomsB "r" "s" = some [("bob", 2, PKind.audio)] ∧
    (("bob", 2, PKind.audio) ∈ ((exRoomB.producers.filter (fun e => e.1 ≠ "s")).flatMap
        fun e => e.2.filterMap fun kp =>
          if kp.2.closed then none else some (e.1, kp.2.id, kp.1)) ↔
      ("bob" ≠ "s" ∧ ∃ m p, ("bob", m) ∈ exRoomB.producers ∧ (PKind.audio, p) ∈ m ∧
        p.closed = false ∧ p.id = 2)) := by
  have h := list_producers_exact exRoomsB "r" "s" exRoomB (by decide)
  refine ⟨by decide, ?_, h.2 "bob" 2 PKind.audio⟩
  rw [h.1]
  decide

/-!
Claims C2 and C4: rebuild failure behaviour and the fingerprint
short-circuit.
-/

/-- C4: a rebuild whose candidate set is non-empty and whose fingerprint
equals the stored one stops immediately: the room state is returned
unchanged and the effect trace is empty — no port allocated, no process
killed or started, no transport or consumer closed, connected or created. -/
theorem fingerprint_short_circuit (env : Env) (rid : String) (room : Room)
    (hne : candidatePairs room ≠ [])
    (hkey : room.lastHlsProducersKey = some (fingerprint (candidatePairs room))) :
    restartRoomHls env rid room = ⟨room, false, []⟩ := by
  have h1 : (candidatePairs room).isEmpty = false := by
    cases hc : candidatePairs room with
    | nil => exact absurd hc hne
    | cons a l => rfl
  unfold restartRoomHls
  simp [h1, hkey]

/-- An environment whose every call succeeds: even in-range port probes,
fresh transport ids `100 + j`, ffmpeg pid 99. -/
def envGood : Env :=
  { audioProbe := fun _ _ => 10102, videoProbe := fun _ _ => 10202, portFuel := 1,
    trId := fun j => 100 + j, trOk := fun _ => true, spawnOk := true, spawnPid := 99,
    connectOk := fun _ => true, consumeOk := fun _ => true }

/-- A room with one full AV candidate (producers 1 and 2) whose stored
fingerprint already matches. -/
def exRoomNoop : Room :=
  { users := ["alice"], transports := [],
    producers := [("alice", [(PKind.audio, ⟨1, false⟩), (PKind.video, ⟨2, false⟩)])],
    lastHlsProducersKey := some [(1, 2)] }

/-- Witness for `fingerprint_short_circuit` on the concrete matching room. -/
theorem fingerprint_short_circuit_witness :
    candidatePairs exRoomNoop ≠ [] ∧
    exRoomNoop.lastHlsProducersKey = some (fingerprint (candidatePairs exRoomNoop)) ∧
    restartRoomHls envGood "r" exRoomNoop = ⟨exRoomNoop, false, []⟩ :=
  ⟨by decide, by decide,
   fingerprint_short_circuit envGood "r" exRoomNoop (by decide) (by decide)⟩

/-- An environment whose port probe never yields an even port within the
fuel bound, so the first allocation fails and the rebuild throws right
after the teardown step. -/
def envFail : Env :=
  { audioProbe := fun _ _ => 10103, videoProbe := fun _ _ => 10203, portFuel := 1,
    trId := fun j => 100 + j, trOk := fun _ => true, spawnOk := true, spawnPid := 99,
    connectOk := fun _ => true, consumeOk := fun _ => true }

/-- A room with a live HLS pipeline (process 42, one egress transport pair,
output directory) and one full AV candidate whose fingerprint differs from
the stored one, so a rebuild proceeds past the short-circuits. -/
def exRoomHls : Room :=
  { users := ["alice"], transports := [],
    producers := [("alice", [(PKind.audio, ⟨1, false⟩), (PKind.video, ⟨2, false⟩)])],
    hlsPlainTransports := some [⟨50, 51⟩],
    hlsFfmpegProcess := some 42,
    hlsDir := some "hls/r",
    lastHlsProducersKey := some [(7, 8)] }

/-- C2 counterexample: a rebuild that fails at port allocation does not
leave the prior HlsState intact — the pre-existing process handle 42 and
egress transport pair were torn down and cleared before the failing step,
so the room ends with no pipeline at all (only the fingerprint survives). -/
theorem rebuild_failure_prior_state_lost :
    (restartRoomHls envFail "r" exRoomHls).failed = true ∧
    exRoomHls.hlsFfmpegProcess = some 42 ∧
    (restartRoomHls envFail "r" exRoomHls).room.hlsFfmpegProcess = none ∧
    exRoomHls.hlsPlainTransports = some [⟨50, 51⟩] ∧
    (restartRoomHls envFail "r" exRoomHls).room.hlsPlainTransports = none := by
  decide

/-- C2 (amended): a rebuild that fails before its final commit stores no
partially-committed HlsState: the stored fingerprint, the output location
and all non-HLS room state (users, transports, producers) keep their prior
values, but the prior pipeline does not survive — the process handle and
egress transport pairs were already torn down unconditionally before the
first fallible step, so the room is left with neither the old nor a new
pipeline. -/
theorem rebuild_failure_no_partial_commit (env : Env) (rid : String) (room : Room)
    (h : (restartRoomHls env rid room).failed = true) :
    (restartRoomHls env rid room).room.lastHlsProducersKey = room.lastHlsProducersKey ∧
    (restartRoomHls env rid room).room.hlsDir = room.hlsDir ∧
    (restartRoomHls env rid room).room.hlsFfmpegProcess = none ∧
    (restartRoomHls env rid room).room.hlsPlainTransports = none ∧
    (restartRoomHls env rid room).room.producers = room.producers ∧
    (restartRoomHls env rid room).room.users = room.users ∧
    (restartRoomHls env rid room).room.transports = room.transports := by
  rcases hE : restartRoomHls env rid room with ⟨r, f, tr⟩
  rw [hE] at h
  dsimp only at h ⊢
  unfold restartRoomHls at hE
  dsimp only at hE
  repeat' split at hE
  all_goals injection hE with e1 e2 e3
  all_goals
    first
    | exact absurd (e2.trans h) (by decide)
    | (rw [← e1]; exact ⟨rfl, rfl, rfl, rfl, rfl, rfl, rfl⟩)

/-- Witness for `rebuild_failure_no_partial_commit` at the concrete failing
run: the fingerprint and output directory survive, the pipeline does not. -/
theorem rebuild_failure_no_partial_commit_witness :
    (restartRoomHls envFail "r" exRoomHls).failed = true ∧
    (restartRoomHls envFail "r" exRoomHls).room.lastHlsProducersKey =
      exRoomHls.lastHlsProducersKey ∧
    (restartRoomHls envFail "r" exRoomHls).room.hlsDir = exRoomHls.hlsDir ∧
    (restartRoomHls envFail "r" exRoomHls).room.producers = exRoomHls.producers :=
  ⟨by decide,
   (rebuild_failure_no_partial_commit envFail "r" exRoomHls (by decide)).1,
   (rebuild_failure_no_partial_commit envFail "r" exRoomHls (by decide)).2.1,
   (rebuild_failure_no_partial_commit envFail "r" exRoomHls (by decide)).2.2.2.2.1⟩

/-!
Block lemmas about the phases of the rebuild trace, used for the strict
ordering claim (C5) and the port-allocation claim (C9).
-/

lemma pairwise_of_const_phase {l : List HAct} {c : Nat} (h : ∀ a ∈ l, phase a = c) :
    List.Pairwise (fun a b => phase a ≤ phase b) l := by
  induction l with
  | nil => exact List.Pairwise.nil
  | cons hd tl ih =>
      refine List.Pairwise.cons ?_ (ih fun a ha => h a (List.mem_cons_of_mem _ ha))
      intro b hb
      rw [h hd (List.mem_cons_self _ _), h b (List.mem_cons_of_mem _ hb)]

lemma pairwise_phase_blocks {l₁ l₂ : List HAct} (c : Nat)
    (h₁ : List.Pairwise (fun a b => phase a ≤ phase b) l₁)
    (hub : ∀ a ∈ l₁, phase a ≤ c)
    (h₂ : List.Pairwise (fun a b => phase a ≤ phase b) l₂)
    (hlb : ∀ b ∈ l₂, c ≤ phase b) :
    List.Pairwise (fun a b => phase a ≤ phase b) (l₁ ++ l₂) := by
  rw [List.pairwise_append]
  exact ⟨h₁, h₂, fun a ha b hb => le_trans (hub a ha) (hlb b hb)⟩

lemma closeActs_phase (ts : List TrPair) :
    ∀ a ∈ ts.foldr (fun t acc => HAct.closeTr t.audioTr :: HAct.closeTr t.videoTr :: acc) [],
      phase a = 1 := by
  induction ts with
  | nil => intro a ha; cases ha
  | cons t rest ih =>
      intro a ha
      simp only [List.foldr_cons, List.mem_cons] at ha
      rcases ha with ha | ha | ha
      · rw [ha]; rfl
      · rw [ha]; rfl
      · exact ih a ha

lemma teardown_phase_le (room : Room) : ∀ a ∈ teardownActs room, phase a ≤ 1 := by
  intro a ha
  unfold teardownActs at ha
  cases hp : room.hlsFfmpegProcess with
  | none =>
      cases ht : room.hlsPlainTransports with
      | none =>
          rw [hp, ht] at ha
          cases ha
      | some ts =>
          rw [hp, ht] at ha
          dsimp only at ha
          rw [List.nil_append] at ha
          rw [closeActs_phase ts a ha]
  | some pid =>
      cases ht : room.hlsPlainTransports with
      | none =>
          rw [hp, ht] at ha
          dsimp only at ha
          simp only [List.append_nil, List.mem_singleton] at ha
          rw [ha]
          exact Nat.zero_le 1
      | some ts =>
          rw [hp, ht] at ha
          dsimp only at ha
          simp only [List.singleton_append, List.mem_cons] at ha
          rcases ha with ha | ha
          · rw [ha]
            exact Nat.zero_le 1
          · rw [closeActs_phase ts a ha]

lemma teardown_pairwise (room : Room) :
    List.Pairwise (fun a b => phase a ≤ phase b) (teardownActs room) := by
  unfold teardownActs
  cases hp : room.hlsFfmpegProcess with
  | none =>
      cases ht : room.hlsPlainTransports with
      | none => exact List.Pairwise.nil
      | some ts =>
          dsimp only
          rw [List.nil_append]
          exact pairwise_of_const_phase (closeActs_phase ts)
  | some pid =>
      cases ht : room.hlsPlainTransports with
      | none =>
          dsimp only
          rw [List.append_nil]
          have hk : ∀ a ∈ [HAct.killProc pid], phase a = 0 := by
            intro a ha
            simp only [List.mem_singleton] at ha
            rw [ha]
            rfl
          exact pairwise_of_const_phase hk
      | some ts =>
          dsimp only
          refine pairwise_phase_blocks 1 ?_ ?_ ?_ ?_
          · have hk : ∀ a ∈ [HAct.killProc pid], phase a = 0 := by
              intro a ha
              simp only [List.mem_singleton] at ha
              rw [ha]
              rfl
            exact pairwise_of_const_phase hk
          · intro a ha
            simp only [List.mem_singleton] at ha
            rw [ha]
            exact Nat.zero_le 1
          · exact pairwise_of_const_phase (closeActs_phase ts)
          · intro a ha
            rw [closeActs_phase ts a ha]

lemma allocLoop_phase (env : Env) :
    ∀ n i, ∀ a ∈ (allocLoop env n i).1, phase a = 2 := by
  intro n
  induction n with
  | zero => intro i a ha; simp [allocLoop] at ha
  | succ n ih =>
      intro i a ha
      unfold allocLoop at ha
      cases hA : getEvenPort (env.audioProbe i) env.portFuel 0 with
      | none => rw [hA] at ha; simp at ha
      | some aRtp =>
          rw [hA] at ha
          cases hV : getEvenPort (env.videoProbe i) env.portFuel 0 with
          | none =>
              rw [hV] at ha
              simp at ha
              rw [ha]; rfl
          | some vRtp =>
              rw [hV] at ha
              by_cases h1 : env.trOk (2 * i)
              · by_cases h2 : env.trOk (2 * i + 1)
                · rcases hR : allocLoop env n (i + 1) with ⟨acts₂, payload⟩
                  cases payload with
                  | none =>
                      simp [h1, h2, hR] at ha
                      rcases ha with ha | ha | ha | ha | ha
                      · rw [ha]; rfl
                      · rw [ha]; rfl
                      · rw [ha]; rfl
                      · rw [ha]; rfl
                      · have := ih (i + 1) a (by rw [hR]; exact ha)
                        exact this
                  | some triple =>
                      rcases triple with ⟨aps, vps, ts⟩
                      simp [h1, h2, hR] at ha
                      rcases ha with ha | ha | ha | ha | ha
                      · rw [ha]; rfl
                      · rw [ha]; rfl
                      · rw [ha]; rfl
                      · rw [ha]; rfl
                      · have := ih (i + 1) a (by rw [hR]; exact ha)
                        exact this
                · simp [h1, h2] at ha
                  rcases ha with ha | ha | ha
                  · rw [ha]; rfl
                  · rw [ha]; rfl
                  · rw [ha]; rfl
              · simp [h1] at ha
                rcases ha with ha | ha
                · rw [ha]; rfl
                · rw [ha]; rfl

lemma connectLoop_phase (env : Env) :
    ∀ l i, ∀ a ∈ (connectLoop env l i).1, phase a = 5 := by
  intro l
  induction l with
  | nil => intro i a ha; simp [connectLoop] at ha
  | cons hd rest ih =>
      intro i a ha
      rcases hd with ⟨t, ap, vp⟩
      unfold connectLoop at ha
      by_cases h1 : env.connectOk (2 * i)
      · by_cases h2 : env.connectOk (2 * i + 1)
        · rcases hR : connectLoop env rest (i + 1) with ⟨acts, ok⟩
          simp [h1, h2, hR] at ha
          rcases ha with ha | ha | ha
          · rw [ha]; rfl
          · rw [ha]; rfl
          · have := ih (i + 1) a (by rw [hR]; exact ha)
            exact this
        · simp [h1, h2] at ha
          rw [ha]; rfl
      · simp [h1] at ha

lemma consumeLoop_phase (env : Env) :
    ∀ l i, ∀ a ∈ (consumeLoop env l i).1, phase a = 6 := by
  intro l
  induction l with
  | nil => intro i a ha; simp [consumeLoop] at ha
  | cons hd rest ih =>
      intro i a ha
      rcases hd with ⟨t, pr⟩
      unfold consumeLoop at ha
      by_cases h1 : env.consumeOk (2 * i)
      · by_cases h2 : env.consumeOk (2 * i + 1)
        · rcases hR : consumeLoop env rest (i + 1) with ⟨acts, ok⟩
          simp [h1, h2, hR] at ha
          rcases ha with ha | ha | ha
          · rw [ha]; rfl
          · rw [ha]; rfl
          · have := ih (i + 1) a (by rw [hR]; exact ha)
            exact this
        · simp [h1, h2] at ha
          rw [ha]; rfl
      · simp [h1] at ha

lemma getLast_append_singleton (l : List HAct) (a : HAct) :
    (l ++ [a]).getLast? = some a := by
  induction l with
  | nil => rfl
  | cons hd tl ih =>
      cases tl with
      | nil => rfl
      | cons h2 t2 =>
          rw [show (hd :: h2 :: t2) ++ [a] = hd :: h2 :: (t2 ++ [a]) from rfl,
            List.getLast?_cons_cons]
          exact ih

lemma phase_of_isSpawn {a : HAct} (h : isSpawn a = true) : phase a = 4 := by
  cases a <;> first | rfl | exact absurd h (by simp [isSpawn])

lemma phase_of_isConnect {a : HAct} (h : isConnect a = true) : phase a = 5 := by
  cases a <;> first | rfl | exact absurd h (by simp [isConnect])

/-- C5: every rebuild that runs to completion (non-empty candidates, changed
fingerprint, no failure) emits its effects in nondecreasing protocol phase —
process kill before prior-transport closes, then port allocations and
transport creations, then the session description write, then the process
spawn, then every egress connect, then every egress consume — the state
commit is the last effect, and in particular no egress-transport connect is
ever issued before the process spawn. -/
theorem rebuild_strict_order (env : Env) (rid : String) (room : Room)
    (hne : candidatePairs room ≠ [])
    (hkey : room.lastHlsProducersKey ≠ some (fingerprint (candidatePairs room)))
    (hok : (restartRoomHls env rid room).failed = false) :
    List.Pairwise (fun a b => phase a ≤ phase b) (restartRoomHls env rid room).trace ∧
    (restartRoomHls env rid room).trace.getLast? = some HAct.commit ∧
    (∀ i j : Fin (restartRoomHls env rid room).trace.length,
        isSpawn ((restartRoomHls env rid room).trace.get i) = true →
        isConnect ((restartRoomHls env rid room).trace.get j) = true → i < j) := by
  rcases hE : restartRoomHls env rid room with ⟨r, f, tr⟩
  rw [hE] at hok
  dsimp only at hok ⊢
  have h1 : (candidatePairs room).isEmpty = false := by
    cases hc : candidatePairs room
    · exact absurd hc hne
    · rfl
  unfold restartRoomHls at hE
  dsimp only at hE
  rw [h1] at hE
  rw [if_neg (by simp)] at hE
  rw [if_neg hkey] at hE
  rcases hA : allocLoop env (candidatePairs room).length 0 with ⟨acts₁, payload⟩
  rw [hA] at hE
  cases payload with
  | none =>
      dsimp only at hE
      injection hE with e1 e2 e3
      exact absurd (e2.trans hok) (by decide)
  | some triple =>
      rcases triple with ⟨aps, vps, ts⟩
      dsimp only at hE
      cases hs : env.spawnOk with
      | false =>
          rw [hs] at hE
          rw [if_neg (by simp)] at hE
          injection hE with e1 e2 e3
          exact absurd (e2.trans hok) (by decide)
      | true =>
          rw [hs] at hE
          rw [if_pos rfl] at hE
          rcases hC : connectLoop env (ts.zip (aps.zip vps)) 0 with ⟨acts₃, ok₃⟩
          rw [hC] at hE
          cases ok₃ with
          | false =>
              dsimp only at hE
              injection hE with e1 e2 e3
              exact absurd (e2.trans hok) (by decide)
          | true =>
              dsimp only at hE
              rcases hD : consumeLoop env (ts.zip (candidatePairs room)) 0 with ⟨acts₄, ok₄⟩
              rw [hD] at hE
              cases ok₄ with
              | false =>
                  dsimp only at hE
                  injection hE with e1 e2 e3
                  exact absurd (e2.trans hok) (by decide)
              | true =>
                  dsimp only at hE
                  injection hE with e1 e2 e3
                  subst e3
                  have hmem₁ : ∀ a ∈ acts₁, phase a = 2 := by
                    intro a ha
                    refine allocLoop_phase env (candidatePairs room).length 0 a ?_
                    rw [hA]
                    exact ha
                  have hmem₃ : ∀ a ∈ acts₃, phase a = 5 := by
                    intro a ha
                    refine connectLoop_phase env (ts.zip (aps.zip vps)) 0 a ?_
                    rw [hC]
                    exact ha
                  have hmem₄ : ∀ a ∈ acts₄, phase a = 6 := by
                    intro a ha
                    refine consumeLoop_phase env (ts.zip (candidatePairs room)) 0 a ?_
                    rw [hD]
                    exact ha
                  have hws : ∀ a ∈ [HAct.writeSdp aps vps, HAct.spawnProc env.spawnPid],
                      3 ≤ phase a ∧ phase a ≤ 4 := by
                    intro a ha
                    simp only [List.mem_cons, List.not_mem_nil, or_false] at ha
                    rcases ha with ha | ha <;> rw [ha] <;> simp [phase]
                  have hcm : ∀ a ∈ [HAct.commit], phase a = 7 := by
                    intro a ha
                    simp only [List.mem_singleton] at ha
                    rw [ha]
                    rfl
                  have p54 : List.Pairwise (fun a b => phase a ≤ phase b)
                      (acts₄ ++ [HAct.commit]) := by
                    refine pairwise_phase_blocks 7 (pairwise_of_const_phase hmem₄) ?_
                      (pairwise_of_const_phase hcm) ?_
                    · intro a ha
                      have := hmem₄ a ha
                      omega
                    · intro b hb
                      have := hcm b hb
                      omega
                  have p3 : List.Pairwise (fun a b => phase a ≤ phase b)
                      (acts₃ ++ (acts₄ ++ [HAct.commit])) := by
                    refine pairwise_phase_blocks 6 (pairwise_of_const_phase hmem₃) ?_ p54 ?_
                    · intro a ha
                      have := hmem₃ a ha
                      omega
                    · intro b hb
                      rcases List.mem_append.mp hb with hb | hb
                      · have := hmem₄ b hb
                        omega
                      · have := hcm b hb
                        omega
                  have p2 : List.Pairwise (fun a b => phase a ≤ phase b)
                      ([HAct.writeSdp aps vps, HAct.spawnProc env.spawnPid] ++
                        (acts₃ ++ (acts₄ ++ [HAct.commit]))) := by
                    refine pairwise_phase_blocks 5 ?_ ?_ p3 ?_
                    · refine List.Pairwise.cons ?_ ?_
                      · intro b hb
                        simp only [List.mem_singleton] at hb
                        rw [hb]
                        simp [phase]
                      · have hsp : ∀ a ∈ [HAct.spawnProc env.spawnPid], phase a = 4 := by
                          intro a ha
                          simp only [List.mem_singleton] at ha
                          rw [ha]
                          rfl
                        exact pairwise_of_const_phase hsp
                    · intro a ha
                      have := hws a ha
                      omega
                    · intro b hb
                      rcases List.mem_append.mp hb with hb | hb
                      · have := hmem₃ b hb
                        omega
                      · rcases List.mem_append.mp hb with hb | hb
                        · have := hmem₄ b hb
                          omega
                        · have := hcm b hb
                          omega
                  have p1 : List.Pairwise (fun a b => phase a ≤ phase b)
                      (acts₁ ++ ([HAct.writeSdp aps vps, HAct.spawnProc env.spawnPid] ++
                        (acts₃ ++ (acts₄ ++ [HAct.commit])))) := by
                    refine pairwise_phase_blocks 3 (pairwise_of_const_phase hmem₁) ?_ p2 ?_
                    · intro a ha
                      have := hmem₁ a ha
                      omega
                    · intro b hb
                      rcases List.mem_append.mp hb with hb | hb
                      · exact (hws b hb).1
                      · rcases List.mem_append.mp hb with hb | hb
                        · have := hmem₃ b hb
                          omega
                        · rcases List.mem_append.mp hb with hb | hb
                          · have := hmem₄ b hb
                            omega
                          · have := hcm b hb
                            omega
                  have P : List.Pairwise (fun a b => phase a ≤ phase b)
                      (teardownActs room ++ (acts₁ ++
                        ([HAct.writeSdp aps vps, HAct.spawnProc env.spawnPid] ++
                          (acts₃ ++ (acts₄ ++ [HAct.commit]))))) := by
                    refine pairwise_phase_blocks 2 (teardown_pairwise room) ?_ p1 ?_
                    · intro a ha
                      have := teardown_phase_le room a ha
                      omega
                    · intro b hb
                      rcases List.mem_append.mp hb with hb | hb
                      · have := hmem₁ b hb
                        omega
                      · rcases List.mem_append.mp hb with hb | hb
                        · exact le_trans (by omega) (hws b hb).1
                        · rcases List.mem_append.mp hb with hb | hb
                          · have := hmem₃ b hb
                            omega
                          · rcases List.mem_append.mp hb with hb | hb
                            · have := hmem₄ b hb
                              omega
                            · have := hcm b hb
                              omega
                  have PL : List.Pairwise (fun a b => phase a ≤ phase b)
                      (teardownActs room ++ acts₁ ++
                        [HAct.writeSdp aps vps, HAct.spawnProc env.spawnPid] ++ acts₃ ++
                        acts₄ ++ [HAct.commit]) := by
                    simpa only [List.append_assoc] using P
                  refine ⟨PL, ?_, ?_⟩
                  · exact getLast_append_singleton _ _
                  · intro i j hsp hcn
                    by_contra hij
                    push_neg at hij
                    rcases lt_or_eq_of_le hij with hji | hji
                    · have hpw := List.pairwise_iff_get.mp PL j i hji
                      rw [phase_of_isConnect hcn, phase_of_isSpawn hsp] at hpw
                      omega
                    · have h4 := phase_of_isSpawn hsp
                      have h5 := phase_of_isConnect hcn
                      rw [hji] at h5
                      omega

/-- A fresh room with one full AV candidate (producers 1 and 2) and no HLS
state yet. -/
def exRoomAV : Room :=
  { users := ["alice"], transports := [],
    producers := [("alice", [(PKind.audio, ⟨1, false⟩), (PKind.video, ⟨2, false⟩)])] }

/-- Witness for `rebuild_strict_order` on a concrete successful rebuild. -/
theorem rebuild_strict_order_witness :
    candidatePairs exRoomAV ≠ [] ∧
    exRoomAV.lastHlsProducersKey ≠ some (fingerprint (candidatePairs exRoomAV)) ∧
    (restartRoomHls envGood "r" exRoomAV).failed = false ∧
    List.Pairwise (fun a b => phase a ≤ phase b) (restartRoomHls envGood "r" exRoomAV).trace ∧
    (restartRoomHls envGood "r" exRoomAV).trace.getLast? = some HAct.commit :=
  ⟨by decide, by decide, by decide,
   (rebuild_strict_order envGood "r" exRoomAV (by decide) (by decide) (by decide)).1,
   (rebuild_strict_order envGood "r" exRoomAV (by decide) (by decide) (by decide)).2.1⟩

/-!
Claim C9: port allocation.
-/

lemma getEvenPort_spec (probe : Nat → Nat) :
    ∀ fuel k p, getEvenPort probe fuel k = some p →
      p % 2 = 0 ∧ ∃ m, k ≤ m ∧ probe m = p ∧ ∀ j, k ≤ j → j < m → probe j % 2 ≠ 0 := by
  intro fuel
  induction fuel with
  | zero => intro k p h; cases h
  | succ n ih =>
      intro k p h
      unfold getEvenPort at h
      dsimp only at h
      by_cases he : probe k % 2 = 0
      · rw [if_pos he] at h
        injection h with h
        subst h
        refine ⟨he, k, le_refl k, rfl, ?_⟩
        intro j h1 h2
        exact absurd h1 (by omega)
      · rw [if_neg he] at h
        obtain ⟨hev, m, hkm, hpm, hmin⟩ := ih (k + 1) p h
        refine ⟨hev, m, by omega, hpm, ?_⟩
        intro j h1 h2
        by_cases hjk : j = k
        · rw [hjk]
          exact he
        · exact hmin j (by omega) h2

lemma allocLoop_alloc_spec (env : Env)
    (ha : ∀ i k, 10102 ≤ env.audioProbe i k ∧ env.audioProbe i k ≤ 10200)
    (hv : ∀ i k, 10202 ≤ env.videoProbe i k ∧ env.videoProbe i k ≤ 10300) :
    ∀ n i b r c, HAct.allocPort b r c ∈ (allocLoop env n i).1 →
      r % 2 = 0 ∧ c = r + 1 ∧
      (b = true → 10102 ≤ r ∧ r ≤ 10200) ∧
      (b = false → 10202 ≤ r ∧ r ≤ 10300) := by
  intro n
  induction n with
  | zero => intro i b r c hm; simp [allocLoop] at hm
  | succ n ih =>
      intro i b r c hm
      unfold allocLoop at hm
      cases hA : getEvenPort (env.audioProbe i) env.portFuel 0 with
      | none => rw [hA] at hm; simp at hm
      | some aRtp =>
          rw [hA] at hm
          obtain ⟨haEv, ma, _, haPm, _⟩ :=
            getEvenPort_spec (env.audioProbe i) env.portFuel 0 aRtp hA
          have haRange : 10102 ≤ aRtp ∧ aRtp ≤ 10200 := by
            rw [← haPm]
            exact ha i ma
          cases hV : getEvenPort (env.videoProbe i) env.portFuel 0 with
          | none =>
              rw [hV] at hm
              simp at hm
              obtain ⟨hb, hr, hc⟩ := hm
              subst hb; subst hr; subst hc
              exact ⟨haEv, rfl, fun _ => haRange, fun hbf => Bool.noConfusion hbf⟩
          | some vRtp =>
              rw [hV] at hm
              obtain ⟨hvEv, mv, _, hvPm, _⟩ :=
                getEvenPort_spec (env.videoProbe i) env.portFuel 0 vRtp hV
              have hvRange : 10202 ≤ vRtp ∧ vRtp ≤ 10300 := by
                rw [← hvPm]
                exact hv i mv
              by_cases h1 : env.trOk (2 * i)
              · by_cases h2 : env.trOk (2 * i + 1)
                · rcases hR : allocLoop env n (i + 1) with ⟨acts₂, payload⟩
                  cases payload with
                  | none =>
                      simp [h1, h2, hR] at hm
                      rcases hm with ⟨hb, hr, hc⟩ | ⟨hb, hr, hc⟩ | hm
                      · subst hb; subst hr; subst hc
                        exact ⟨haEv, rfl, fun _ => haRange, fun hbf => Bool.noConfusion hbf⟩
                      · subst hb; subst hr; subst hc
                        exact ⟨hvEv, rfl, fun hbt => Bool.noConfusion hbt, fun _ => hvRange⟩
                      · refine ih (i + 1) b r c ?_
                        rw [hR]
                        exact hm
                  | some triple =>
                      rcases triple with ⟨aps, vps, ts⟩
                      simp [h1, h2, hR] at hm
                      rcases hm with ⟨hb, hr, hc⟩ | ⟨hb, hr, hc⟩ | hm
                      · subst hb; subst hr; subst hc
                        exact ⟨haEv, rfl, fun _ => haRange, fun hbf => Bool.noConfusion hbf⟩
                      · subst hb; subst hr; subst hc
                        exact ⟨hvEv, rfl, fun hbt => Bool.noConfusion hbt, fun _ => hvRange⟩
                      · refine ih (i + 1) b r c ?_
                        rw [hR]
                        exact hm
                · simp [h1, h2] at hm
                  rcases hm with ⟨hb, hr, hc⟩ | ⟨hb, hr, hc⟩
                  · subst hb; subst hr; subst hc
                    exact ⟨haEv, rfl, fun _ => haRange, fun hbf => Bool.noConfusion hbf⟩
                  · subst hb; subst hr; subst hc
                    exact ⟨hvEv, rfl, fun hbt => Bool.noConfusion hbt, fun _ => hvRange⟩
              · simp [h1] at hm
                rcases hm with ⟨hb, hr, hc⟩ | ⟨hb, hr, hc⟩
                · subst hb; subst hr; subst hc
                  exact ⟨haEv, rfl, fun _ => haRange, fun hbf => Bool.noConfusion hbf⟩
                · subst hb; subst hr; subst hc
                  exact ⟨hvEv, rfl, fun hbt => Bool.noConfusion hbt, fun _ => hvRange⟩

lemma restart_alloc_mem (env : Env) (rid : String) (room : Room) (b : Bool) (r c : Nat)
    (h : HAct.allocPort b r c ∈ (restartRoomHls env rid room).trace) :
    HAct.allocPort b r c ∈ (allocLoop env (candidatePairs room).length 0).1 := by
  have hnoTear : ∀ x ∈ teardownActs room, phase x ≤ 1 := teardown_phase_le room
  rcases hE : restartRoomHls env rid room with ⟨rr, f, tr⟩
  rw [hE] at h
  dsimp only at h
  unfold restartRoomHls at hE
  dsimp only at hE
  by_cases h1 : (candidatePairs room).isEmpty = true
  · rw [if_pos h1] at hE
    injection hE with e1 e2 e3
    subst e3
    exact absurd (hnoTear _ h) (by simp [phase])
  · rw [if_neg h1] at hE
    by_cases h2 : room.lastHlsProducersKey = some (fingerprint (candidatePairs room))
    · rw [if_pos h2] at hE
      injection hE with e1 e2 e3
      subst e3
      cases h
    · rw [if_neg h2] at hE
      rcases hA : allocLoop env (candidatePairs room).length 0 with ⟨acts₁, payload⟩
      rw [hA] at hE
      cases payload with
      | none =>
          dsimp only at hE
          injection hE with e1 e2 e3
          subst e3
          rcases List.mem_append.mp h with h | h
          · exact absurd (hnoTear _ h) (by simp [phase])
          · exact h
      | some triple =>
          rcases triple with ⟨aps, vps, ts⟩
          dsimp only at hE
          cases hs : env.spawnOk with
          | false =>
              rw [hs, if_neg (by simp)] at hE
              injection hE with e1 e2 e3
              subst e3
              rcases List.mem_append.mp h with h | h
              · exact absurd (hnoTear _ h) (by simp [phase])
              · exact h
          | true =>
              rw [hs, if_pos rfl] at hE
              rcases hC : connectLoop env (ts.zip (aps.zip vps)) 0 with ⟨acts₃, ok₃⟩
              rw [hC] at hE
              have hc3 : ∀ x ∈ acts₃, phase x = 5 := by
                intro x hx
                refine connectLoop_phase env (ts.zip (aps.zip vps)) 0 x ?_
                rw [hC]
                exact hx
              cases ok₃ with
              | false =>
                  dsimp only at hE
                  injection hE with e1 e2 e3
                  subst e3
                  rcases List.mem_append.mp h with h | h
                  · rcases List.mem_append.mp h with h | h
                    · rcases List.mem_append.mp h with h | h
                      · exact absurd (hnoTear _ h) (by simp [phase])
                      · exact h
                    · simp at h
                  · exact absurd (hc3 _ h) (by simp [phase])
              | true =>
                  dsimp only at hE
                  rcases hD : consumeLoop env (ts.zip (candidatePairs room)) 0 with ⟨acts₄, ok₄⟩
                  rw [hD] at hE
                  have hc4 : ∀ x ∈ acts₄, phase x = 6 := by
                    intro x hx
                    refine consumeLoop_phase env (ts.zip (candidatePairs room)) 0 x ?_
                    rw [hD]
                    exact hx
                  cases ok₄ with
                  | false =>
                      dsimp only at hE
                      injection hE with e1 e2 e3
                      subst e3
                      rcases List.mem_append.mp h with h | h
                      · rcases List.mem_append.mp h with h | h
                        · rcases List.mem_append.mp h with h | h
                          · rcases List.mem_append.mp h with h | h
                            · exact absurd (hnoTear _ h) (by simp [phase])
                            · exact h
                          · simp at h
                        · exact absurd (hc3 _ h) (by simp [phase])
                      · exact absurd (hc4 _ h) (by simp [phase])
                  | true =>
                      dsimp only at hE
                      injection hE with e1 e2 e3
                      subst e3
                      rcases List.mem_append.mp h with h | h
                      · rcases List.mem_append.mp h with h | h
                        · rcases List.mem_append.mp h with h | h
                          · rcases List.mem_append.mp h with h | h
                            · rcases List.mem_append.mp h with h | h
                              · exact absurd (hnoTear _ h) (by simp [phase])
                              · exact h
                            · simp at h
                          · exact absurd (hc3 _ h) (by simp [phase])
                        · exact absurd (hc4 _ h) (by simp [phase])
                      · simp at h

/-- C9: every audio RTP port a rebuild allocates is even, within the
configured audio range 10102-10200, and paired with the next odd port as
RTCP; likewise every video RTP port is even, within 10202-10300, and paired
with the next odd port — the two ranges being disjoint, no allocated audio
RTP port ever equals an allocated video RTP port; and `getEvenPort` returns
exactly the first probe answer with an even value (all earlier probes were
odd). -/
theorem egress_port_allocation (env : Env) (rid : String) (room : Room)
    (ha : ∀ i k, 10102 ≤ env.audioProbe i k ∧ env.audioProbe i k ≤ 10200)
    (hv : ∀ i k, 10202 ≤ env.videoProbe i k ∧ env.videoProbe i k ≤ 10300) :
    (∀ r c, HAct.allocPort true r c ∈ (restartRoomHls env rid room).trace →
        r % 2 = 0 ∧ c = r + 1 ∧ 10102 ≤ r ∧ r ≤ 10200) ∧
    (∀ r c, HAct.allocPort false r c ∈ (restartRoomHls env rid room).trace →
        r % 2 = 0 ∧ c = r + 1 ∧ 10202 ≤ r ∧ r ≤ 10300) ∧
    (∀ ra ca rv cv, HAct.allocPort true ra ca ∈ (restartRoomHls env rid room).trace →
        HAct.allocPort false rv cv ∈ (restartRoomHls env rid room).trace → ra ≠ rv) ∧
    (∀ (probe : Nat → Nat) (fuel p : Nat), getEvenPort probe fuel 0 = some p →
        p % 2 = 0 ∧ ∃ m, probe m = p ∧ ∀ j, j < m → probe j % 2 ≠ 0) := by
  have hAu : ∀ r c, HAct.allocPort true r c ∈ (restartRoomHls env rid room).trace →
      r % 2 = 0 ∧ c = r + 1 ∧ 10102 ≤ r ∧ r ≤ 10200 := by
    intro r c hm
    have hs := allocLoop_alloc_spec env ha hv (candidatePairs room).length 0 true r c
      (restart_alloc_mem env rid room true r c hm)
    exact ⟨hs.1, hs.2.1, hs.2.2.1 rfl⟩
  have hVi : ∀ r c, HAct.allocPort false r c ∈ (restartRoomHls env rid room).trace →
      r % 2 = 0 ∧ c = r + 1 ∧ 10202 ≤ r ∧ r ≤ 10300 := by
    intro r c hm
    have hs := allocLoop_alloc_spec env ha hv (candidatePairs room).length 0 false r c
      (restart_alloc_mem env rid room false r c hm)
    exact ⟨hs.1, hs.2.1, hs.2.2.2 rfl⟩
  refine ⟨hAu, hVi, ?_, ?_⟩
  · intro ra ca rv cv hma hmv
    have r₁ := hAu ra ca hma
    have r₂ := hVi rv cv hmv
    omega
  · intro probe fuel p h
    obtain ⟨hev, m, _, hpm, hmin⟩ := getEvenPort_spec probe fuel 0 p h
    exact ⟨hev, m, hpm, fun j hj => hmin j (Nat.zero_le j) hj⟩

/-- Witness for `egress_port_allocation` on a concrete in-range environment
and a concrete rebuild. -/
theorem egress_port_allocation_witness :
    (∀ i k, 10102 ≤ envGood.audioProbe i k ∧ envGood.audioProbe i k ≤ 10200) ∧
    (∀ i k, 10202 ≤ envGood.videoProbe i k ∧ envGood.videoProbe i k ≤ 10300) ∧
    (∀ r c, HAct.allocPort true r c ∈ (restartRoomHls envGood "r" exRoomAV).trace →
        r % 2 = 0 ∧ c = r + 1 ∧ 10102 ≤ r ∧ r ≤ 10200) ∧
    HAct.allocPort true 10102 10103 ∈ (restartRoomHls envGood "r" exRoomAV).trace :=
  ⟨fun i k => by simp [envGood], fun i k => by simp [envGood],
   (egress_port_allocation envGood "r" exRoomAV
     (fun i k => by simp [envGood]) (fun i k => by simp [envGood])).1,
   by decide⟩

end MediasoupApi
